import Mathlib

/-
  Verification of the UPLO5 feed-generation scheduler against its design
  specification.  The embedding follows the repository code where it exists
  (FeedLoadingService.processQueue, RorkAIClient.retryWithBackoff,
  validateProductForGeneration, FeedProvider/Feed glue); components whose
  implementation is only described by the specification (PositionCache claim
  protocol, CircuitBreaker, EnsureWindow enqueue logic, stats reporting) are
  modelled from the specification text and marked as such in doc comments.
-/

namespace UPLO5

/-- State of one feed position entry, from the data model: a position is
Pending, Claimed by a worker, Ready, or Failed (retryable or terminal). -/
inductive EState where
  | pending
  | claimed
  | ready
  | failedRetryable
  | failedTerminal
  deriving DecidableEq

/-- Scheduler state: the position cache, the job queue (queued positions, a
job is created at attempt 0 when enqueued), and the number of active
workers.  Mirrors the fields of FeedLoadingService: jobQueue, activeWorkers,
and the result cache. -/
structure SchedState where
  cache : Nat → Option EState
  queue : List Nat
  active : Nat

/-- From FeedLoadingService: MAX_WORKERS = 30. -/
def MAX_WORKERS : Nat := 30

/-- From RorkAIClient: MAX_RETRIES = 3. -/
def MAX_RETRIES : Nat := 3

/-- Modelled from the spec: a position needs a job enqueued when it is absent
from the PositionCache or present only as a retryable failure; positions
already Pending, Claimed, Ready or terminally Failed get no new job. -/
def needsEnqueue : Option EState → Bool
  | none => true
  | some .failedRetryable => true
  | some _ => false

/-- Modelled from the spec: the addJobs/EnsureWindow step for one position.
If the position needs a job, a FeedEntry is created (set Pending, marking the
position as enqueued, which is how duplicate enqueue is prevented) and the
position is appended to the job queue; otherwise no side effect.  The
implementation of FeedLoadingService.addJobs is not in the sources; only its
call sites in FeedProvider are. -/
def enqueuePos (st : SchedState) (p : Nat) : SchedState :=
  if needsEnqueue (st.cache p) then
    { st with
      cache := fun q => if q = p then some EState.pending else st.cache q,
      queue := st.queue ++ [p] }
  else st

/-- Modelled from the spec: addJobs over a list of positions. -/
def addJobs (st : SchedState) (ps : List Nat) : SchedState :=
  ps.foldl enqueuePos st

/-- The window of positions [c, c+s). -/
def windowPositions (c s : Nat) : List Nat :=
  (List.range s).map (fun i => c + i)

/-- Modelled from the spec: EnsureWindow(cursor, size) = addJobs over the
window [cursor, cursor+size). -/
def ensureWindow (st : SchedState) (c s : Nat) : SchedState :=
  addJobs st (windowPositions c s)

/-- From FeedLoadingService.processQueue: the while loop.  While
activeWorkers < MAX_WORKERS and the queue is non-empty, shift the head job
off the queue, increment activeWorkers and launch the job.  Returns the new
active count, the remaining queue, and the launched jobs in launch order. -/
def processQueueAux : Nat → List Nat → List Nat → Nat × List Nat × List Nat
  | active, [], launched => (active, [], launched)
  | active, p :: rest, launched =>
    if active < MAX_WORKERS then
      processQueueAux (active + 1) rest (launched ++ [p])
    else
      (active, p :: rest, launched)

/-- From FeedLoadingService.processQueue applied to the scheduler state.
The second component lists the jobs launched by this call, in order. -/
def processQueue (st : SchedState) : SchedState × List Nat :=
  let r := processQueueAux st.active st.queue []
  ({ st with active := r.1, queue := r.2.1 }, r.2.2)

/-- From FeedLoadingService.processJob: the .finally handler decrements
activeWorkers when a launched job completes; the completing worker also
writes the outcome for its position into the cache. -/
def finishJob (st : SchedState) (p : Nat) (o : EState) : SchedState :=
  { st with
    cache := fun q => if q = p then some o else st.cache q,
    active := st.active - 1 }

/-- An operation on the scheduler, as invoked by FeedProvider: addJobs /
EnsureWindow, processQueue, or the completion callback of a launched job. -/
inductive SOp where
  | ensure (c s : Nat)
  | add (ps : List Nat)
  | process
  | finish (p : Nat) (o : EState)

def applyOp (st : SchedState) : SOp → SchedState
  | .ensure c s => ensureWindow st c s
  | .add ps => addJobs st ps
  | .process => (processQueue st).1
  | .finish p o => finishJob st p o

/-- Run a sequence of scheduler operations. -/
def run (st : SchedState) (ops : List SOp) : SchedState :=
  ops.foldl applyOp st

/-- The initial scheduler state: empty cache, empty queue, no active
workers (FeedLoadingService starts with activeWorkers = 0). -/
def initState : SchedState :=
  { cache := fun _ => none, queue := [], active := 0 }

/-- Modelled from the spec: getWorkerStats/GetStats reports the current
activeWorkers count and MAX_WORKERS; the implementation is not in the
sources, only the FeedProvider call site. -/
def getWorkerStats (st : SchedState) : Nat × Nat :=
  (st.active, MAX_WORKERS)

/-- A product as seen by validateProductForGeneration.  The image_urls
field is an Option: none models a value that is not an array (the
Array.isArray check fails); some gives the list of URL strings. -/
structure ProductV where
  image_urls : Option (List String)
  deriving DecidableEq

/-- The URL scheme checked by the validator. -/
def httpScheme : String := "http"

/-- Character-list core of the JS String startsWith check. -/
def startsWithL : List Char → List Char → Bool
  | _, [] => true
  | [], _ :: _ => false
  | c :: s, d :: t => (c == d) && startsWithL s t

/-- The JS imageUrl.startsWith(pre) check, over the character data of the
two strings. -/
def strStartsWith (s pre : String) : Bool :=
  startsWithL s.data pre.data

/-- From validateProductForGeneration in the sources: rejects a null
product, a missing or non-array image_urls, an empty image_urls, and a
first URL that is falsy or does not start with http.  Only the FIRST
element of image_urls is inspected. -/
def validateProductForGeneration : Option ProductV → Bool
  | none => false
  | some p =>
    match p.image_urls with
    | none => false
    | some [] => false
    | some (u :: _) => (u != "") && strStartsWith u httpScheme

/-- From RorkAIClient.retryWithBackoff: try fn; on error, if retries = 0
rethrow, else wait 1000 * (4 - retries) ms and recurse with retries - 1.
The embedding takes fn indexed by the call number and returns the final
result, the list of backoff delays in ms in the order they were waited,
and the total number of calls made to fn. -/
def retryWithBackoff (fn : Nat → Except Unit String) :
    Nat → Nat → Except Unit String × List Nat × Nat
  | retries, callIdx =>
    match fn callIdx with
    | .ok a => (.ok a, [], 1)
    | .error e =>
      match retries with
      | 0 => (.error e, [], 1)
      | r + 1 =>
        let res := retryWithBackoff fn r (callIdx + 1)
        (res.1, 1000 * (4 - (r + 1)) :: res.2.1, res.2.2 + 1)

/-- A generation call that always fails (for exercising the retry path). -/
def alwaysFail : Nat → Except Unit String := fun _ => .error ()

/-- The payload returned by a successful example generation call. -/
def genImage : String := "generated"

/-- A generation call that fails transiently on the first two calls and
succeeds on the third. -/
def failTwiceFn : Nat → Except Unit String :=
  fun k => if k < 2 then .error () else .ok genImage

/-- A job as created by addJobs: position and attempt counter, created at
attempt = 0 when enqueued. -/
structure JobRec where
  position : Nat
  attempt : Nat

/-- Outcome of executing one job to completion. -/
inductive JobResult where
  | ready (attempt : Nat)
  | failed
  deriving DecidableEq

/-- Modelled from the spec: executing a job runs the generation call under
retryWithBackoff; each call to the generation client consumes one attempt,
and on success the entry becomes Ready with the total attempt count
recorded (the FeedEntry bookkeeping of FeedLoadingService is not in the
sources; the retry mechanics are). -/
def runJob (job : JobRec) (fn : Nat → Except Unit String) : JobResult :=
  let res := retryWithBackoff fn MAX_RETRIES 0
  match res.1 with
  | .ok _ => .ready (job.attempt + res.2.2)
  | .error _ => .failed

/-- Failure classification of generateVirtualTryOn. -/
inductive GenFailure where
  | validationFailed
  | apiError
  deriving DecidableEq

/-- From RorkAIClient.generateVirtualTryOn: validate the product first and
throw without any API call if validation fails; otherwise call the API
under retryWithBackoff.  Returns the result, the number of generation
calls made, and the number of CircuitBreaker consecutive-failure
increments (modelled from the spec: each failed generation call increments
the breaker; a validation failure never reaches the generation path, so it
contributes zero calls and zero increments). -/
def generateVirtualTryOn (product : Option ProductV)
    (fn : Nat → Except Unit String) :
    Except GenFailure String × Nat × Nat :=
  if validateProductForGeneration product then
    let res := retryWithBackoff fn MAX_RETRIES 0
    match res.1 with
    | .ok s => (.ok s, res.2.2, res.2.2 - 1)
    | .error _ => (.error .apiError, res.2.2, res.2.2)
  else
    (.error .validationFailed, 0, 0)

/-- Outcome of one pass of FeedLoadingService.processJob over a job. -/
inductive JobOutcome where
  | ready (img : String) (attempt : Nat)
  | substituted (next : Option ProductV) (attempt : Nat)
  deriving DecidableEq

/-- From FeedLoadingService.processJob: on success the result is cached;
on any failure the catch block fetches a different product and retries
with it.  The embedding reports which branch was taken; the job attempt
counter is advanced only by generation calls actually made. -/
def processJobOnce (job : JobRec) (product : Option ProductV)
    (next : Option ProductV) (fn : Nat → Except Unit String) : JobOutcome :=
  let res := generateVirtualTryOn product fn
  match res.1 with
  | .ok img => .ready img (job.attempt + res.2.1)
  | .error _ => .substituted next (job.attempt + res.2.1)

/-- Count of Ready positions in the window [c, c+s). -/
def readyCountInWindow (cache : Nat → Option EState) (c s : Nat) : Nat :=
  ((List.range s).filter
    (fun i => decide (cache (c + i) = some EState.ready))).length

/-- Modelled from the spec: bufferHealth = readyCountInWindow / windowSize
over the most recent window, 0 when the window size is 0.  The stats
implementation is not in the sources, only the FeedProvider call site and
the overlay that displays it. -/
def bufferHealth (cache : Nat → Option EState) (c s : Nat) : ℚ :=
  if s = 0 then 0 else (readyCountInWindow cache c s : ℚ) / (s : ℚ)

/-- Modelled from the spec: GetStats returns activeWorkers, maxWorkers and
bufferHealth over the most recent window. -/
def getStats (st : SchedState) (c s : Nat) : Nat × Nat × ℚ :=
  (st.active, MAX_WORKERS, bufferHealth st.cache c s)

/-- An example cache with exactly positions 0..23 Ready. -/
def cache24 : Nat → Option EState :=
  fun p => if p < 24 then some EState.ready else some EState.pending

/-- A scheduler state with position 0 already Ready. -/
def stReady0 : SchedState :=
  { cache := fun q => if q = 0 then some EState.ready else none,
    queue := [], active := 0 }

/-- Priority order on queued positions as stated by the spec: ascending
distance from the current cursor, ties broken by ascending position. -/
def priorityLE (cursor p q : Nat) : Prop :=
  Nat.dist p cursor < Nat.dist q cursor ∨
    (Nat.dist p cursor = Nat.dist q cursor ∧ p ≤ q)

instance (cursor p q : Nat) : Decidable (priorityLE cursor p q) := by
  unfold priorityLE; infer_instance

/-- A queued position is highest-priority when it is in the queue and is
minimal under priorityLE among all queued positions. -/
def isHighestPriority (cursor : Nat) (queue : List Nat) (p : Nat) : Prop :=
  p ∈ queue ∧ ∀ q ∈ queue, priorityLE cursor p q

instance (cursor : Nat) (queue : List Nat) (p : Nat) :
    Decidable (isHighestPriority cursor queue p) := by
  unfold isHighestPriority; infer_instance

namespace SF

/-- Single-flight model state, modelled from the spec: the PositionCache
(absent entries behave as Pending, so the cache is total here) and for
each worker the position whose claim it currently holds (none = idle).
The claim protocol of FeedLoadingService/PositionCache is not in the
sources; it is modelled from the claim/CAS description in the spec. -/
structure SFState where
  cache : Nat → EState
  workers : Nat → Option Nat

/-- Modelled from the spec: the compare-and-swap claim succeeds only from
Pending or Failed-retryable. -/
def claimable : EState → Bool
  | .pending => true
  | .failedRetryable => true
  | _ => false

/-- Modelled from the spec: atomic steps of the worker pool against the
PositionCache.  claim is the CAS (Pending/Failed-retryable to Claimed);
a failed CAS aborts silently and changes nothing, so it needs no step.
release is the completing worker writing its outcome (never Claimed) and
freeing its slot. -/
inductive SFStep : SFState → SFState → Prop where
  | claim (st : SFState) (w p : Nat)
      (hw : st.workers w = none)
      (hc : claimable (st.cache p) = true) :
      SFStep st
        { cache := fun q => if q = p then EState.claimed else st.cache q,
          workers := fun v => if v = w then some p else st.workers v }
  | release (st : SFState) (w p : Nat) (o : EState)
      (hw : st.workers w = some p)
      (ho : o ≠ EState.claimed) :
      SFStep st
        { cache := fun q => if q = p then o else st.cache q,
          workers := fun v => if v = w then none else st.workers v }

/-- States reachable from an initial state with idle workers and no
position yet Claimed. -/
inductive SFReach : SFState → Prop where
  | init (cache0 : Nat → EState) (h : ∀ p, cache0 p ≠ EState.claimed) :
      SFReach { cache := cache0, workers := fun _ => none }
  | step {st st2 : SFState} : SFReach st → SFStep st st2 → SFReach st2

/-- The single-flight invariant: every held claim is backed by a Claimed
cache entry, and no position is held by two distinct workers. -/
def Inv (st : SFState) : Prop :=
  (∀ w p, st.workers w = some p → st.cache p = EState.claimed) ∧
    (∀ w1 w2 p, st.workers w1 = some p → st.workers w2 = some p → w1 = w2)

end SF

namespace CB

/-- Circuit breaker status, modelled from the spec. -/
inductive CBStatus where
  | closed
  | opened
  | halfOpen
  deriving DecidableEq

/-- Circuit breaker state, modelled from the spec: status, consecutive
failure count, the time the breaker opened, the cooldown duration, and
whether a HalfOpen trial is currently in flight.  No circuit breaker
exists in the sources; the whole component is modelled from the spec. -/
structure CBState where
  status : CBStatus
  consecutiveFailures : Nat
  openedAt : Nat
  cooldown : Nat
  trialInFlight : Bool

/-- Modelled from the spec: N = 5 consecutive failures open the breaker. -/
def FAILURE_THRESHOLD : Nat := 5

/-- Modelled from the spec: recording a generation failure at time t.
In Closed, the consecutive-failure count increments and at the threshold
the breaker opens, recording openedAt.  A HalfOpen trial failure reopens
the breaker with doubled cooldown. -/
def recordFailure (t : Nat) (s : CBState) : CBState :=
  match s.status with
  | .closed =>
    if FAILURE_THRESHOLD ≤ s.consecutiveFailures + 1 then
      { s with status := .opened,
               consecutiveFailures := s.consecutiveFailures + 1,
               openedAt := t }
    else
      { s with consecutiveFailures := s.consecutiveFailures + 1 }
  | .halfOpen =>
    { s with status := .opened,
             consecutiveFailures := s.consecutiveFailures + 1,
             openedAt := t,
             cooldown := s.cooldown * 2,
             trialInFlight := false }
  | .opened =>
    { s with consecutiveFailures := s.consecutiveFailures + 1 }

/-- Modelled from the spec: recording a success closes the breaker and
resets the consecutive-failure count. -/
def recordSuccess (s : CBState) : CBState :=
  { s with status := .closed, consecutiveFailures := 0,
           trialInFlight := false }

/-- Decision returned by the breaker gate before a generation call. -/
inductive CallDecision where
  | proceed
  | circuitOpenError
  | admittedTrial
  | rejectedTrialBusy
  deriving DecidableEq

/-- Whether a gate decision lets the caller invoke GenerationClient. -/
def invokesClient : CallDecision → Bool
  | .proceed => true
  | .admittedTrial => true
  | .circuitOpenError => false
  | .rejectedTrialBusy => false

/-- Modelled from the spec: the gate consulted before each generation
call at time t.  Closed passes through; Open before cooldown elapses
short-circuits with CircuitOpenError; once cooldown has elapsed the
caller is admitted as the single HalfOpen trial; further callers during
an in-flight trial are rejected. -/
def beforeCall (t : Nat) (s : CBState) : CBState × CallDecision :=
  match s.status with
  | .closed => (s, .proceed)
  | .opened =>
    if t < s.openedAt + s.cooldown then
      (s, .circuitOpenError)
    else
      ({ s with status := .halfOpen, trialInFlight := true }, .admittedTrial)
  | .halfOpen =>
    if s.trialInFlight then
      (s, .rejectedTrialBusy)
    else
      ({ s with trialInFlight := true }, .admittedTrial)

/-- n consecutive recorded failures at time t. -/
def applyFailures (t : Nat) : Nat → CBState → CBState
  | 0, s => s
  | n + 1, s => applyFailures t n (recordFailure t s)

/-- Number of callers admitted among n concurrent callers hitting the
gate one after another at time t, with no call completing in between. -/
def admittedCount (t : Nat) : Nat → CBState → Nat
  | 0, _ => 0
  | n + 1, s =>
    let r := beforeCall t s
    (if r.2 = .admittedTrial then 1 else 0) + admittedCount t n r.1

end CB

namespace SF

/-- The initial single-flight state used by the witness: every position
Pending, every worker idle. -/
def sfInit : SFState :=
  { cache := fun _ => EState.pending, workers := fun _ => none }

/-- The state after worker 0 claims position 5 from sfInit. -/
def sfClaimed : SFState :=
  { cache := fun q => if q = 5 then EState.claimed else sfInit.cache q,
    workers := fun v => if v = 0 then some 5 else sfInit.workers v }

end SF

/-
  Theorems
-/

/-- One-step unfolding of retryWithBackoff. -/
theorem retryWithBackoff_eq (fn : Nat → Except Unit String) (r i : Nat) :
    retryWithBackoff fn r i =
      match fn i with
      | .ok a => (.ok a, [], 1)
      | .error e =>
        match r with
        | 0 => (.error e, [], 1)
        | s + 1 =>
          let res := retryWithBackoff fn s (i + 1)
          (res.1, 1000 * (4 - (s + 1)) :: res.2.1, res.2.2 + 1) := by
  conv_lhs => rw [retryWithBackoff]

/-- C10: validateProductForGeneration returns true exactly when the product
is non-null, its image_urls field is an array, the array is non-empty, and
its FIRST element is a truthy string starting with http; and a product
whose first image URL does not start with http is rejected no matter what
the later elements of image_urls are. -/
theorem validate_product_iff (p : Option ProductV) :
    (validateProductForGeneration p = true ↔
      ∃ v u rest, p = some v ∧ v.image_urls = some (u :: rest) ∧
        u ≠ "" ∧ strStartsWith u httpScheme = true) ∧
    (∀ v u rest, v.image_urls = some (u :: rest) →
      strStartsWith u httpScheme = false →
      validateProductForGeneration (some v) = false) := by
  constructor
  · cases p with
    | none => simp [validateProductForGeneration]
    | some v =>
      obtain ⟨urls⟩ := v
      cases urls with
      | none => simp [validateProductForGeneration]
      | some l =>
        cases l with
        | nil => simp [validateProductForGeneration]
        | cons u rest =>
          simp [validateProductForGeneration, Bool.and_eq_true, bne_iff_ne]
  · intro v u rest hv hns
    obtain ⟨urls⟩ := v
    dsimp at hv
    subst hv
    simp [validateProductForGeneration, hns]

/-- Witness for C10: the product whose image_urls is
[ftp URL, valid http URL] has a first element not starting with http and
is rejected even though the second element is a valid URL. -/
theorem validate_product_iff_witness :
    (ProductV.mk (some ["ftp://a", "http://b"])).image_urls
        = some ("ftp://a" :: ["http://b"]) ∧
    strStartsWith ("ftp://a") httpScheme = false ∧
    validateProductForGeneration
        (some (ProductV.mk (some ["ftp://a", "http://b"]))) = false :=
  ⟨rfl, by decide,
    (validate_product_iff (some (ProductV.mk (some ["ftp://a", "http://b"])))).2
      (ProductV.mk (some ["ftp://a", "http://b"])) "ftp://a" ["http://b"]
      rfl (by decide)⟩

/-- C7 counterexample: on a persistently failing call, the delays produced
by retryWithBackoff (MAX_RETRIES = 3) are 1000, 2000 and 3000 ms, which is
not an exponential (geometric) progression in the retry number k: no base
r > 1 and positive coefficient c fit all three delays as c * r ^ k. -/
theorem backoff_not_exponential_counterexample :
    (retryWithBackoff alwaysFail MAX_RETRIES 0).2.1 = [1000, 2000, 3000] ∧
    ¬ ∃ c r : ℚ, 0 < c ∧ 1 < r ∧
        (1000 : ℚ) = c * r ∧ (2000 : ℚ) = c * r ^ 2 ∧
        (3000 : ℚ) = c * r ^ 3 := by
  refine ⟨rfl, ?_⟩
  rintro ⟨c, r, hc, hr, h1, h2, h3⟩
  have e2 : (2000 : ℚ) = 1000 * r := by
    calc (2000 : ℚ) = c * r ^ 2 := h2
    _ = (c * r) * r := by ring
    _ = 1000 * r := by rw [← h1]
  have hr2 : r = 2 := by linarith
  subst hr2
  norm_num at h1 h3
  linarith

/-- C7 amended: transient failures are retried with bounded LINEAR backoff
up to MAX_RETRIES = 3: the delay before retry k is k * 1000 ms, and at
most retries + 1 calls are ever made, so no retry happens after
MAX_RETRIES. -/
theorem retry_backoff_linear (fn : Nat → Except Unit String) (r i : Nat) :
    (retryWithBackoff fn r i).2.2 ≤ r + 1 ∧
    (retryWithBackoff alwaysFail MAX_RETRIES 0).2.1
      = [1 * 1000, 2 * 1000, 3 * 1000] := by
  refine ⟨?_, by rfl⟩
  induction r generalizing i with
  | zero =>
    rw [retryWithBackoff_eq]
    cases h : fn i <;> simp
  | succ n ih =>
    rw [retryWithBackoff_eq]
    cases h : fn i with
    | ok a => simp
    | error e =>
      simpa using Nat.succ_le_succ (ih (i + 1))

/-- C8: a job created and enqueued at attempt 0 whose generation call fails
transiently exactly twice and succeeds on the third call makes 3 calls in
total and ends Ready with recorded attempt 3. -/
theorem retry_then_success (job : JobRec) (h : job.attempt = 0) :
    failTwiceFn 0 = .error () ∧ failTwiceFn 1 = .error () ∧
    failTwiceFn 2 = .ok genImage ∧
    (retryWithBackoff failTwiceFn MAX_RETRIES 0).2.2 = 3 ∧
    runJob job failTwiceFn = .ready 3 := by
  refine ⟨rfl, rfl, rfl, rfl, ?_⟩
  have e : runJob job failTwiceFn = .ready (job.attempt + 3) := rfl
  rw [e, h]

/-- Witness for C8 at the concrete job at position 0, attempt 0. -/
theorem retry_then_success_witness :
    (JobRec.mk 0 0).attempt = 0 ∧
    runJob (JobRec.mk 0 0) failTwiceFn = .ready 3 :=
  ⟨rfl, (retry_then_success (JobRec.mk 0 0) rfl).2.2.2.2⟩

/-- C9: a product with empty image_urls fails validation, and the worker
treats it as a non-retryable validation failure: it makes zero generation
calls (no generation attempt is consumed), increments the breaker
consecutive-failure count zero times, and substitutes a different product
with the job attempt counter unchanged. -/
theorem validation_substitution (job : JobRec) (v : ProductV)
    (next : Option ProductV) (fn : Nat → Except Unit String)
    (h : v.image_urls = some []) :
    validateProductForGeneration (some v) = false ∧
    (generateVirtualTryOn (some v) fn).2.1 = 0 ∧
    (generateVirtualTryOn (some v) fn).2.2 = 0 ∧
    processJobOnce job (some v) next fn = .substituted next job.attempt := by
  obtain ⟨urls⟩ := v
  dsimp at h
  subst h
  refine ⟨rfl, rfl, rfl, ?_⟩
  show JobOutcome.substituted next (job.attempt + 0)
      = JobOutcome.substituted next job.attempt
  rw [Nat.add_zero]

theorem addJobs_cons (st : SchedState) (p : Nat) (ps : List Nat) :
    addJobs st (p :: ps) = addJobs (enqueuePos st p) ps := rfl

theorem enqueuePos_active (st : SchedState) (p : Nat) :
    (enqueuePos st p).active = st.active := by
  unfold enqueuePos; split <;> rfl

theorem addJobs_active (ps : List Nat) : ∀ st : SchedState,
    (addJobs st ps).active = st.active := by
  induction ps with
  | nil => intro st; rfl
  | cons p rest ih =>
    intro st
    rw [addJobs_cons, ih (enqueuePos st p), enqueuePos_active]

theorem processQueueAux_active_le (q : List Nat) : ∀ active launched,
    active ≤ MAX_WORKERS →
    (processQueueAux active q launched).1 ≤ MAX_WORKERS := by
  induction q with
  | nil => intro a l h; exact h
  | cons p rest ih =>
    intro a l h
    by_cases ha : a < MAX_WORKERS
    · simp only [processQueueAux, if_pos ha]
      exact ih (a + 1) (l ++ [p]) ha
    · simp only [processQueueAux, if_neg ha]
      exact h

theorem applyOp_active_le (st : SchedState) (op : SOp)
    (h : st.active ≤ MAX_WORKERS) :
    (applyOp st op).active ≤ MAX_WORKERS := by
  cases op with
  | ensure c s =>
    show (ensureWindow st c s).active ≤ MAX_WORKERS
    rw [ensureWindow, addJobs_active]; exact h
  | add ps =>
    show (addJobs st ps).active ≤ MAX_WORKERS
    rw [addJobs_active]; exact h
  | process =>
    exact processQueueAux_active_le st.queue st.active [] h
  | finish p o =>
    exact Nat.le_trans (Nat.sub_le st.active 1) h

/-- C1: over every sequence of EnsureWindow / addJobs / processQueue calls
and job completions, started from the initial state, the activeWorkers
count — also as reported by getWorkerStats — never exceeds
MAX_WORKERS = 30: processQueue launches a job only while
activeWorkers < MAX_WORKERS and each completed job decrements
activeWorkers. -/
theorem active_workers_bounded (ops : List SOp) :
    (run initState ops).active ≤ MAX_WORKERS ∧
    (getWorkerStats (run initState ops)).1 = (run initState ops).active := by
  refine ⟨?_, rfl⟩
  have key : ∀ st : SchedState, st.active ≤ MAX_WORKERS →
      (run st ops).active ≤ MAX_WORKERS := by
    induction ops with
    | nil => intro st h; exact h
    | cons op rest ih =>
      intro st h
      exact ih (applyOp st op) (applyOp_active_le st op h)
  exact key initState (Nat.zero_le MAX_WORKERS)

theorem enqueuePos_cache_ne (st : SchedState) (p q : Nat) (h : q ≠ p) :
    (enqueuePos st p).cache q = st.cache q := by
  unfold enqueuePos; split
  · simp [h]
  · rfl

theorem enqueuePos_not_needs (st : SchedState) (p : Nat) :
    needsEnqueue ((enqueuePos st p).cache p) = false := by
  unfold enqueuePos; split
  · simp [needsEnqueue]
  · rename_i h; simpa using h

theorem enqueuePos_preserves_not_needs (st : SchedState) (p q : Nat)
    (h : needsEnqueue (st.cache q) = false) :
    needsEnqueue ((enqueuePos st p).cache q) = false := by
  by_cases hpq : q = p
  · subst hpq; exact enqueuePos_not_needs st q
  · rw [enqueuePos_cache_ne st p q hpq]; exact h

theorem addJobs_preserves_not_needs (ps : List Nat) : ∀ (st : SchedState)
    (q : Nat), needsEnqueue (st.cache q) = false →
    needsEnqueue ((addJobs st ps).cache q) = false := by
  induction ps with
  | nil => intro st q h; exact h
  | cons p rest ih =>
    intro st q h
    rw [addJobs_cons]
    exact ih (enqueuePos st p) q (enqueuePos_preserves_not_needs st p q h)

theorem addJobs_mem_not_needs (ps : List Nat) : ∀ (st : SchedState)
    (q : Nat), q ∈ ps →
    needsEnqueue ((addJobs st ps).cache q) = false := by
  induction ps with
  | nil => intro st q h; cases h
  | cons p rest ih =>
    intro st q h
    rw [addJobs_cons]
    rcases List.mem_cons.mp h with h1 | h2
    · subst h1
      exact addJobs_preserves_not_needs rest (enqueuePos st q) q
        (enqueuePos_not_needs st q)
    · exact ih (enqueuePos st p) q h2

theorem enqueuePos_noop (st : SchedState) (p : Nat)
    (h : needsEnqueue (st.cache p) = false) :
    enqueuePos st p = st := by
  unfold enqueuePos
  rw [h]
  rfl

theorem addJobs_noop (ps : List Nat) : ∀ st : SchedState,
    (∀ p ∈ ps, needsEnqueue (st.cache p) = false) → addJobs st ps = st := by
  induction ps with
  | nil => intro st _; rfl
  | cons p rest ih =>
    intro st h
    rw [addJobs_cons, enqueuePos_noop st p (h p (List.mem_cons_self p rest))]
    exact ih st (fun q hq => h q (List.mem_cons_of_mem p hq))

theorem enqueuePos_queue_count (st : SchedState) (p q : Nat)
    (h : needsEnqueue (st.cache q) = false) :
    (enqueuePos st p).queue.count q = st.queue.count q := by
  unfold enqueuePos; split
  · rename_i htrig
    have hne : p ≠ q := by
      intro e; rw [← e] at h; rw [h] at htrig; cases htrig
    simp [List.count_append, List.count_singleton, hne]
  · rfl

theorem addJobs_count (ps : List Nat) : ∀ (st : SchedState) (q : Nat),
    needsEnqueue (st.cache q) = false →
    (addJobs st ps).queue.count q = st.queue.count q := by
  induction ps with
  | nil => intro st q _; rfl
  | cons p rest ih =>
    intro st q h
    rw [addJobs_cons, ih (enqueuePos st p) q
          (enqueuePos_preserves_not_needs st p q h),
        enqueuePos_queue_count st p q h]

/-- C4: EnsureWindow is idempotent: a second EnsureWindow(c, s) with no
intervening state change leaves the state (and in particular the queue)
exactly as after the first call, and a single call never enqueues a job
for a position that is already Ready or Claimed. -/
theorem ensureWindow_idempotent (st : SchedState) (c s : Nat) :
    ensureWindow (ensureWindow st c s) c s = ensureWindow st c s ∧
    ∀ p, (st.cache p = some EState.ready ∨ st.cache p = some EState.claimed) →
      (ensureWindow st c s).queue.count p = st.queue.count p := by
  constructor
  · exact addJobs_noop (windowPositions c s) (addJobs st (windowPositions c s))
      (fun p hp => addJobs_mem_not_needs (windowPositions c s) st p hp)
  · intro p hp
    have h : needsEnqueue (st.cache p) = false := by
      rcases hp with h | h <;> rw [h] <;> rfl
    exact addJobs_count (windowPositions c s) st p h

/-- Witness for C4 at a concrete state with position 0 Ready: the window
[0, 2) does not enqueue position 0 again. -/
theorem ensureWindow_idempotent_witness :
    stReady0.cache 0 = some EState.ready ∧
    (ensureWindow stReady0 0 2).queue.count 0 = stReady0.queue.count 0 :=
  ⟨rfl, (ensureWindow_idempotent stReady0 0 2).2 0 (Or.inl rfl)⟩

/-- C6 counterexample: starting from the empty scheduler, enqueue positions
0, 1, 2 and let the cursor be 2.  The first job processQueue launches is
position 0, the FIFO head of jobQueue.shift, which is NOT the
highest-priority queued job: position 2 is queued at distance 0 from the
cursor while position 0 is at distance 2. -/
theorem dequeue_not_priority_counterexample :
    (addJobs initState [0, 1, 2]).queue = [0, 1, 2] ∧
    (processQueue (addJobs initState [0, 1, 2])).2.head? = some 0 ∧
    ¬ isHighestPriority 2 [0, 1, 2] 0 := by
  refine ⟨rfl, rfl, ?_⟩
  decide

theorem processQueueAux_take_drop (q : List Nat) : ∀ active launched,
    (processQueueAux active q launched).2.2
        = launched ++ q.take (MAX_WORKERS - active) ∧
    (processQueueAux active q launched).2.1
        = q.drop (MAX_WORKERS - active) := by
  induction q with
  | nil => intro a l; simp [processQueueAux]
  | cons p rest ih =>
    intro a l
    by_cases ha : a < MAX_WORKERS
    · have hsub : MAX_WORKERS - a = (MAX_WORKERS - (a + 1)) + 1 := by omega
      rw [hsub]
      simp only [processQueueAux, if_pos ha, List.take_succ_cons,
        List.drop_succ_cons]
      rcases ih (a + 1) (l ++ [p]) with ⟨h1, h2⟩
      rw [h1, h2]
      simp
    · have hz : MAX_WORKERS - a = 0 := Nat.sub_eq_zero_of_le (Nat.le_of_not_lt ha)
      rw [hz]
      simp [processQueueAux, if_neg ha]

/-- C6 amended: when workers become free, jobs are dequeued in FIFO order
(jobQueue.shift): a processQueue call launches exactly the first
MAX_WORKERS - activeWorkers queued jobs, in queue order, leaving the rest
queued; the queue is not reordered by distance to the cursor. -/
theorem processQueue_fifo (st : SchedState) :
    (processQueue st).2 = st.queue.take (MAX_WORKERS - st.active) ∧
    (processQueue st).1.queue = st.queue.drop (MAX_WORKERS - st.active) := by
  have h := processQueueAux_take_drop st.queue st.active []
  unfold processQueue
  simpa using h

namespace SF

theorem inv_preserved {st st2 : SFState} (h : Inv st) (hs : SFStep st st2) :
    Inv st2 := by
  obtain ⟨h1, h2⟩ := h
  cases hs with
  | claim w p hw hc =>
    have hnp : ∀ v, st.workers v ≠ some p := by
      intro v hv
      have := h1 v p hv
      rw [this] at hc
      cases hc
    constructor
    · intro v q hv
      by_cases hvw : v = w
      · subst hvw
        simp only [if_pos rfl] at hv
        obtain rfl : p = q := Option.some.inj hv
        simp
      · simp only [if_neg hvw] at hv
        have hcl := h1 v q hv
        have hqp : q ≠ p := by
          intro e; subst e; exact hnp v hv
        simpa [hqp] using hcl
    · intro v1 v2 q hv1 hv2
      by_cases hw1 : v1 = w <;> by_cases hw2 : v2 = w
      · rw [hw1, hw2]
      · subst hw1
        simp only [if_pos rfl] at hv1
        obtain rfl : p = q := Option.some.inj hv1
        simp only [if_neg hw2] at hv2
        exact absurd hv2 (hnp v2)
      · subst hw2
        simp only [if_pos rfl] at hv2
        obtain rfl : p = q := Option.some.inj hv2
        simp only [if_neg hw1] at hv1
        exact absurd hv1 (hnp v1)
      · simp only [if_neg hw1] at hv1
        simp only [if_neg hw2] at hv2
        exact h2 v1 v2 q hv1 hv2
  | release w p o hw ho =>
    constructor
    · intro v q hv
      by_cases hvw : v = w
      · subst hvw; simp only [if_pos rfl] at hv; cases hv
      · simp only [if_neg hvw] at hv
        have hqp : q ≠ p := fun e => hvw (h2 v w p (e ▸ hv) hw)
        simpa [hqp] using h1 v q hv
    · intro v1 v2 q hv1 hv2
      by_cases hw1 : v1 = w
      · subst hw1; simp only [if_pos rfl] at hv1; cases hv1
      · by_cases hw2 : v2 = w
        · subst hw2; simp only [if_pos rfl] at hv2; cases hv2
        · simp only [if_neg hw1] at hv1
          simp only [if_neg hw2] at hv2
          exact h2 v1 v2 q hv1 hv2

theorem reach_inv {st : SFState} (h : SFReach st) : Inv st := by
  induction h with
  | init cache0 hc =>
    refine ⟨?_, ?_⟩
    · intro w p hw
      cases hw
    · intro w1 w2 p hp1 hp2
      cases hp1
  | step hr hs ih => exact inv_preserved ih hs

/-- C2: single-flight.  In every state reachable under the claim protocol
(compare-and-swap Pending/Failed-retryable to Claimed, silent abort on a
failed claim, outcome written on release), no position is held Claimed by
two workers at once: two workers holding the same position are the same
worker, and a held position is Claimed in the cache. -/
theorem single_flight (st : SFState) (h : SFReach st) (w1 w2 p : Nat)
    (h1 : st.workers w1 = some p) (h2 : st.workers w2 = some p) :
    w1 = w2 ∧ st.cache p = EState.claimed :=
  ⟨(reach_inv h).2 w1 w2 p h1 h2, (reach_inv h).1 w1 p h1⟩

theorem sfClaimed_reach : SFReach sfClaimed :=
  SFReach.step
    (SFReach.init (fun _ => EState.pending) (fun _ h => EState.noConfusion h))
    (SFStep.claim sfInit 0 5 rfl rfl)

/-- Witness for C2 in the concrete reachable state where worker 0 holds
position 5. -/
theorem single_flight_witness :
    SFReach sfClaimed ∧ sfClaimed.workers 0 = some 5 ∧
    ((0 : Nat) = 0 ∧ sfClaimed.cache 5 = EState.claimed) :=
  ⟨sfClaimed_reach, rfl, single_flight sfClaimed sfClaimed_reach 0 0 5 rfl rfl⟩

end SF

namespace CB

theorem admittedCount_busy (u : Nat) : ∀ (m : Nat) (s : CBState),
    s.status = CBStatus.halfOpen → s.trialInFlight = true →
    admittedCount u m s = 0 := by
  intro m
  induction m with
  | zero => intro s _ _; rfl
  | succ k ih =>
    intro s h1 h2
    obtain ⟨st, cf, oa, cd, tf⟩ := s
    dsimp at h1 h2
    subst h1; subst h2
    simp only [admittedCount, beforeCall, if_pos rfl]
    simpa using ih _ rfl rfl

/-- C3: circuit breaker state machine.  From Closed with a zero
consecutive-failure count, 5 recorded failures open the breaker; every
gate consultation while Open and before cooldown elapses returns
CircuitOpenError without invoking GenerationClient; and once cooldown has
elapsed, exactly one of any number of concurrent callers is admitted as
the HalfOpen trial. -/
theorem circuit_breaker (s : CBState) (t : Nat)
    (hs : s.status = CBStatus.closed) (hcf : s.consecutiveFailures = 0) :
    (applyFailures t 5 s).status = CBStatus.opened ∧
    (∀ (s2 : CBState) (u : Nat), s2.status = CBStatus.opened →
      u < s2.openedAt + s2.cooldown →
      beforeCall u s2 = (s2, CallDecision.circuitOpenError) ∧
      invokesClient CallDecision.circuitOpenError = false) ∧
    (∀ (s3 : CBState) (u n : Nat), s3.status = CBStatus.opened →
      s3.openedAt + s3.cooldown ≤ u → 1 ≤ n →
      admittedCount u n s3 = 1) := by
  refine ⟨?_, ?_, ?_⟩
  · obtain ⟨st, cf, oa, cd, tf⟩ := s
    dsimp at hs hcf
    subst hs; subst hcf
    simp [applyFailures, recordFailure, FAILURE_THRESHOLD]
  · intro s2 u h1 h2
    obtain ⟨st2, cf2, oa2, cd2, tf2⟩ := s2
    dsimp at h1 h2
    subst h1
    exact ⟨by simp [beforeCall, if_pos h2], rfl⟩
  · intro s3 u n h1 h2 h3
    obtain ⟨m, rfl⟩ := Nat.exists_eq_add_of_le h3
    rw [Nat.add_comm]
    obtain ⟨st3, cf3, oa3, cd3, tf3⟩ := s3
    dsimp at h1 h2
    subst h1
    have hnl : ¬ u < oa3 + cd3 := Nat.not_lt.mpr h2
    simp only [admittedCount, beforeCall, if_neg hnl]
    simpa using admittedCount_busy u m _ rfl rfl

/-- Witness for C3 at concrete breaker states: a fresh Closed breaker, a
gate consultation at time 3 on a breaker opened at time 0 with cooldown
10, and 4 concurrent callers at time 12 on the same open breaker. -/
theorem circuit_breaker_witness :
    (CBState.mk CBStatus.closed 0 0 10 false).status = CBStatus.closed ∧
    (applyFailures 7 5 (CBState.mk CBStatus.closed 0 0 10 false)).status
        = CBStatus.opened ∧
    beforeCall 3 (CBState.mk CBStatus.opened 5 0 10 false)
        = (CBState.mk CBStatus.opened 5 0 10 false,
           CallDecision.circuitOpenError) ∧
    admittedCount 12 4 (CBState.mk CBStatus.opened 5 0 10 false) = 1 :=
  ⟨rfl,
   (circuit_breaker (CBState.mk CBStatus.closed 0 0 10 false) 7 rfl rfl).1,
   ((circuit_breaker (CBState.mk CBStatus.closed 0 0 10 false) 7 rfl rfl).2.1
      (CBState.mk CBStatus.opened 5 0 10 false) 3 rfl (by norm_num)).1,
   (circuit_breaker (CBState.mk CBStatus.closed 0 0 10 false) 7 rfl rfl).2.2
      (CBState.mk CBStatus.opened 5 0 10 false) 12 4 rfl (by norm_num)
      (by norm_num)⟩

end CB

theorem readyCount_le (cache : Nat → Option EState) (c s : Nat) :
    readyCountInWindow cache c s ≤ s := by
  have h := List.length_filter_le
    (fun i => decide (cache (c + i) = some EState.ready)) (List.range s)
  simpa [readyCountInWindow] using h

/-- C5: GetStats returns bufferHealth equal to the exact ratio
readyCountInWindow / windowSize over the window, a rational in [0, 1],
equal to 0 when the window size is 0; with window size 30 and 24 Ready
positions in the window it equals 4/5 = 0.8. -/
theorem bufferHealth_spec (st : SchedState) (c s : Nat) :
    (0 ≤ bufferHealth st.cache c s ∧ bufferHealth st.cache c s ≤ 1) ∧
    (s = 0 → bufferHealth st.cache c s = 0) ∧
    (readyCountInWindow st.cache c 30 = 24 →
      bufferHealth st.cache c 30 = 4 / 5) ∧
    getStats st c s = (st.active, MAX_WORKERS, bufferHealth st.cache c s) := by
  refine ⟨?_, ?_, ?_, rfl⟩
  · by_cases hz : s = 0
    · simp [bufferHealth, hz]
    · have hpos : (0 : ℚ) < (s : ℚ) := by
        exact_mod_cast Nat.pos_of_ne_zero hz
      constructor
      · rw [bufferHealth, if_neg hz]
        positivity
      · rw [bufferHealth, if_neg hz]
        rw [div_le_one hpos]
        exact_mod_cast readyCount_le st.cache c s
  · intro hz
    simp [bufferHealth, hz]
  · intro h24
    rw [bufferHealth, if_neg (by norm_num), h24]
    norm_num

/-- Witness for C5 at the concrete cache with positions 0..23 Ready:
24 Ready positions in the window [0, 30) give bufferHealth 4/5, and a
zero-size window gives 0. -/
theorem bufferHealth_spec_witness :
    readyCountInWindow cache24 0 30 = 24 ∧
    bufferHealth cache24 0 30 = 4 / 5 ∧
    bufferHealth cache24 0 0 = 0 :=
  ⟨by decide,
   (bufferHealth_spec (SchedState.mk cache24 [] 0) 0 30).2.2.1 (by decide),
   (bufferHealth_spec (SchedState.mk cache24 [] 0) 0 0).2.1 rfl⟩

/-- Witness for C9 at a concrete product with empty image_urls. -/
theorem validation_substitution_witness :
    (ProductV.mk (some [])).image_urls = some [] ∧
    validateProductForGeneration (some (ProductV.mk (some []))) = false ∧
    processJobOnce (JobRec.mk 3 0) (some (ProductV.mk (some []))) none
        alwaysFail = .substituted none 0 :=
  ⟨rfl,
    (validation_substitution (JobRec.mk 3 0) (ProductV.mk (some [])) none
      alwaysFail rfl).1,
    (validation_substitution (JobRec.mk 3 0) (ProductV.mk (some [])) none
      alwaysFail rfl).2.2.2⟩

end UPLO5
